import Mathlib

/-!
# A verification development for the lispread S-expression reader

This file gives a shallow embedding of `src/lispread.c`: a generic,
recursive-descent Lisp/Scheme reader.  The character source is modelled as a
`List Char` (each element standing for one input byte; `[]` is end of input),
and one invocation of the read function consumes a prefix of that list and
produces a value, an error, or the end-of-stream sentinel.

Configuration: the embedding follows the concrete build in the repository's
test harness (the second half of `src/lispread.c`): `BRACKET_LISTS` is
defined, `T` and `U` are defined, `E` (logical end-of-file, `##`),
`NIL_SYMBOL` and `CALL_MACRO_CHAR` are not defined, and `ESCAPE_STRING` is
the identity.  `STRING_2_NUMBER` is the harness's `strtol`-based parser,
modelled below without machine-width truncation (no input in question
overflows) and with parse failure rendered as `Option.none` instead of the
harness's pointer-coded false sentinel.  Per the macro contract documented in
`lispread.c` (`SYMBOL(NAME): return a symbol VALUE for NAME with '_'
replaced with '-'`), the synthesized quote-family symbols substitute `-` for
`_` in their C token spelling.

The C reader mutates pair tails in place (`SET_CDR`) while accumulating
lists.  The embedding is functional; to keep that observable, a successful
read carries the number of `SET_CDR` calls the C code would have executed.

The C recursion (nested `READ_CALL`s and the `try_again` retry loop) is
bounded here by an explicit fuel parameter; fuel is an artifact of the
embedding (the C loops are bounded by the input), and every theorem below is
stated for all sufficiently large fuel or for all fuel.
-/

/-! ## Character classes (from `<ctype.h>` in the C locale and the reader's
terminator/token sets), expressed over the byte value of a character. -/

/-- `isspace` of the C locale: space, `\t`, `\n`, `\v`, `\f`, `\r`. -/
def spaceB (n : Nat) : Bool := decide (n = 32 ∨ (9 ≤ n ∧ n ≤ 13))

/-- `macro_terminating_charQ` on a non-EOF byte: `;` `(` `)` `[` `]` `#`
or whitespace (`BRACKET_LISTS` is defined in this build). -/
def termB (n : Nat) : Bool :=
  decide (n = 59 ∨ n = 40 ∨ n = 41 ∨ n = 91 ∨ n = 93 ∨ n = 35) || spaceB n

/-- `isdigit`: `0`–`9`. -/
def digitB (n : Nat) : Bool := decide (48 ≤ n ∧ n ≤ 57)

/-- `isalpha` in the C locale: `a`–`z` or `A`–`Z`. -/
def alphaB (n : Nat) : Bool := decide ((97 ≤ n ∧ n ≤ 122) ∨ (65 ≤ n ∧ n ≤ 90))

/-- The punctuation bytes that start a token in the reader's dispatch
`switch`: `~` `!` `@` `$` `%` `&` `*` `_` `+` `-` `=` `:` `<` `>` `^` `.`
`?` `/` `|`. -/
def punctB (n : Nat) : Bool :=
  decide (n = 126 ∨ n = 33 ∨ n = 64 ∨ n = 36 ∨ n = 37 ∨ n = 38 ∨ n = 42 ∨
          n = 95 ∨ n = 43 ∨ n = 45 ∨ n = 61 ∨ n = 58 ∨ n = 60 ∨ n = 62 ∨
          n = 94 ∨ n = 46 ∨ n = 63 ∨ n = 47 ∨ n = 124)

/-- A byte that begins token production: a digit, a symbol-constituent
punctuation byte, a letter, or a raw byte `≥ 128` (the `default:` branch). -/
def tokenStartB (n : Nat) : Bool := digitB n || punctB n || alphaB n || decide (128 ≤ n)

def isspace (c : Char) : Bool := spaceB c.toNat
def isTerm (c : Char) : Bool := termB c.toNat
def isdigitC (c : Char) : Bool := digitB c.toNat
def isalphaC (c : Char) : Bool := alphaB c.toNat
def isTokenStart (c : Char) : Bool := tokenStartB c.toNat

/-- The single-quote character `'` (byte 39). -/
def squote : Char := Char.ofNat 39

/-- The backquote character (byte 96). -/
def bquote : Char := Char.ofNat 96

/-- The double-quote character `"` (byte 34). -/
def dquote : Char := Char.ofNat 34

/-! ## The value model

The harness's `VALUE` universe: pairs, interned symbols (identified by their
name), strings, numbers, characters, vectors, and the sentinels `NIL`, `T`,
`F`, `U` and `EOS`.  Symbol interning makes symbol identity coincide with
name equality, so `EQ` on the model is plain equality. -/

inductive Value where
  | nil
  | eos
  | t
  | f
  | u
  | num (n : Int)
  | sym (name : String)
  | str (s : String)
  | ch (byte : Nat)
  | vec (l : Value)
  | pair (first rest : Value)
deriving Repr, DecidableEq

/-- The `ERROR(...)` call sites of the reader, one constructor per site,
with the data the C format string reports. -/
inductive Err where
  | eosInList
  | dotNoElement
  | eosAfterDotCdr
  | wrongTerminator (expected found : Char)
  | eosAfterHash
  | unterminatedBlockComment
  | eosAfterCharBackslash
  | unknownCharName (name : String)
  | badHashSequence (c : Char)
  | eosInString
  | invalidNumber (text : String)
  | unexpectedChar (c : Char)
deriving Repr, DecidableEq

/-- Result of one read invocation: a value together with the unconsumed
input and the number of `SET_CDR` mutations executed, an error (the C
`ERROR` unwinds out of the whole invocation), or fuel exhaustion (an
artifact of the embedding, never reached at adequate fuel). -/
inductive R where
  | ok (v : Value) (rest : List Char) (muts : Nat)
  | err (e : Err)
  | outOfFuel
deriving Repr, DecidableEq

/-- Add `m` `SET_CDR` mutations to an already-computed result. -/
def R.addMuts (m : Nat) : R → R
  | R.ok v rest m2 => R.ok v rest (m + m2)
  | x => x

/-- The `SYMBOL(NAME)` host macro contract of `lispread.c`: the symbol for
`NAME` with `_` replaced by `-`. -/
def hostSymbolName (s : String) : String :=
  String.mk (s.data.map (fun c => if c = '_' then '-' else c))

def hostSymbol (s : String) : Value := Value.sym (hostSymbolName s)

/-! ## `eat_whitespace_peekchar`

Skips whitespace and `;`-to-end-of-line comments, returning the input
positioned at the first character that is neither (the C function returns
that character without consuming it; here the remaining input is returned).
The comment scanner stops at `\n` without consuming it and the whitespace
loop then consumes it, so the net effect consumes through the newline. -/

def eatWsM : Bool → List Char → List Char
  | _, [] => []
  | false, c :: t =>
    if isspace c then eatWsM false t
    else if c = ';' then eatWsM true t
    else c :: t
  | true, c :: t => if c = '\n' then eatWsM false t else eatWsM true t

def eatWs : List Char → List Char := eatWsM false

/-- Consume a `#!` (shebang) comment body: everything up to, but not
including, the next newline (the retry's whitespace skipping consumes it). -/
def dropLineComment (s : List Char) : List Char := s.dropWhile (fun c => !(c = '\n'))

/-- The `#| ... |#` balanced block comment scanner: nesting `level` starts
at 1 at the call site, each `#|` increments it, each `|#` decrements it;
the scan stops exactly when the level reaches 0, and end of input with a
positive level is a failure (`none`). -/
def skipBlock (level : Nat) (s : List Char) : Option (List Char) :=
  if level = 0 then some s
  else
    match s with
    | [] => none
    | '|' :: '#' :: t => skipBlock (level - 1) t
    | '#' :: '|' :: t => skipBlock (level + 1) t
    | _ :: t => skipBlock level t

/-! ## Token scanning and the host number parser -/

/-- Accumulate token characters: starting from the already-consumed lead
characters `acc`, keep consuming while the next character is not a
terminator (end of input terminates). -/
def scanToken (acc : List Char) (s : List Char) : List Char × List Char :=
  match s with
  | [] => (acc, [])
  | c :: t => if isTerm c then (acc, c :: t) else scanToken (acc ++ [c]) t

/-- `strtol` digit value: `0`–`9`, then letters (case-insensitive) for
10–35; 99 marks a non-digit. -/
def digitValue (c : Char) : Nat :=
  let n := c.toNat
  if 48 ≤ n ∧ n ≤ 57 then n - 48
  else if 97 ≤ n ∧ n ≤ 122 then n - 87
  else if 65 ≤ n ∧ n ≤ 90 then n - 55
  else 99

/-- Longest run of digits valid in `radix`, accumulating the value. -/
def grabDigits (radix : Nat) : List Char → Nat → Nat × List Char
  | [], acc => (acc, [])
  | c :: t, acc =>
    if digitValue c < radix then grabDigits radix t (acc * radix + digitValue c)
    else (acc, c :: t)

/-- For radix 16, `strtol` skips an optional `0x`/`0X` prefix, but only when
a hexadecimal digit follows (otherwise the subject sequence is just `0`). -/
def hexPrefixRest (s : List Char) : Option (List Char) :=
  match s with
  | '0' :: c :: d :: t =>
    if (c = 'x' || c = 'X') && decide (digitValue d < 16) then some (d :: t) else none
  | _ => none

/-- The harness's `string_2_number`: `strtol(s, &se, radix)`, succeeding
(otherwise the false sentinel, here `none`) exactly when the stored end
pointer reaches the terminating NUL.  `strtol` skips leading whitespace and
an optional sign, consumes the longest valid digit run, and, when no
conversion is performed, stores the original pointer (so the empty string
"succeeds" with value 0, as the harness's code does). -/
def string2number (s : String) (radix : Nat) : Option Int :=
  let l0 := s.data
  let l1 := l0.dropWhile isspace
  let signNeg : Bool := match l1 with | '-' :: _ => true | _ => false
  let l2 : List Char := match l1 with
    | '-' :: t => t
    | '+' :: t => t
    | _ => l1
  let l3 : List Char := if radix = 16 then (hexPrefixRest l2).getD l2 else l2
  let pr := grabDigits radix l3 0
  if l3 ≠ pr.2 then
    if pr.2.isEmpty then some (if signNeg then -(pr.1 : Int) else (pr.1 : Int))
    else none
  else if l0.isEmpty then some 0
  else none

/-- Token production (number-or-symbol), the big `case` block of the
reader: the buffer starts with the already-consumed lead character `c0` and
grows while the peeked character is not terminating.  With a pending radix
indicator (`skipRadix`), exactly one leading byte of the buffer is excluded
from the text handed to number parsing; on parse failure a forced radix is
an error, otherwise the text is interned as a symbol (`NIL_SYMBOL` is not
defined in this build, so no empty-list substitution occurs). -/
def readToken (c0 : Char) (s : List Char) (radix : Nat) (skipRadix : Bool) : R :=
  let pr := scanToken [c0] s
  let buf := pr.1
  let rest := pr.2
  let numText := if skipRadix then buf.drop 1 else buf
  match string2number (String.mk numText) radix with
  | some n => R.ok (Value.num n) rest 0
  | none =>
    if skipRadix then R.err (Err.invalidNumber (String.mk numText))
    else R.ok (Value.sym (String.mk numText)) rest 0

/-! ## String production

The opening quote is consumed; characters accumulate until an unescaped
closing quote.  After a backslash (which itself is accumulated) the next
character is accumulated without the terminator test, and a backslash there
chains the escape again; end of input anywhere is an error.
`ESCAPE_STRING` is the identity in this build. -/

def rdStr (s : List Char) (acc : List Char) (afterBackslash : Bool) : R :=
  match s with
  | [] => R.err Err.eosInString
  | c :: t =>
    if !afterBackslash && c = dquote then R.ok (Value.str (String.mk acc)) t 0
    else if c = '\\' then rdStr t (acc ++ [c]) true
    else rdStr t (acc ++ [c]) false

/-! ## Character literals (`#\`) -/

/-- After an alphabetic lead character, keep accumulating alphabetic,
non-terminating characters. -/
def scanCharName (acc : List Char) (s : List Char) : List Char × List Char :=
  match s with
  | [] => (acc, [])
  | c :: t =>
    if isalphaC c && !isTerm c then scanCharName (acc ++ [c]) t else (acc, c :: t)

/-- ASCII lower-casing, for the `strcasecmp` name comparisons. -/
def toLowerChar (c : Char) : Char :=
  let n := c.toNat
  if 65 ≤ n ∧ n ≤ 90 then Char.ofNat (n + 32) else c

/-- `#\` production, the backslash already consumed: one character, or a
multi-character alphabetic name that must be `space` or `newline`
(case-insensitively); an unrecognized multi-character name is an error. -/
def readCharLit (s : List Char) : R :=
  match s with
  | [] => R.err Err.eosAfterCharBackslash
  | c0 :: t =>
    let pr := if isalphaC c0 then scanCharName [c0] t else ([c0], t)
    let buf := pr.1
    let rest := pr.2
    let lower := String.mk (buf.map toLowerChar)
    if lower = ("space") then R.ok (Value.ch 32) rest 0
    else if lower = ("newline") then R.ok (Value.ch 10) rest 0
    else if 1 < buf.length then R.err (Err.unknownCharName (String.mk buf))
    else R.ok (Value.ch c0.toNat) rest 0

/-- Wrap a nested read result as the two-element list
`(SYMBOL(name) x)` built by the quote-family branches:
`CONS(SYMBOL(name), CONS(x, NIL))`. -/
def quoteWrap (name : String) : R → R
  | R.ok v rest m => R.ok (Value.pair (hostSymbol name) (Value.pair v Value.nil)) rest m
  | x => x

/-- Rebuild the pair chain the list loop constructs in place:
`CONS` cells for `elems` in order, ending in `tail`. -/
def mkImproper (elems : List Value) (tail : Value) : Value :=
  elems.foldr Value.pair tail

/-- Classify the radix-indicator characters of hash dispatch:
`b`/`B` → 2, `o`/`O` → 8, `d`/`D` → 10, `x`/`X` → 16. -/
def radixOfChar (c : Char) : Option Nat :=
  if c = 'b' || c = 'B' then some 2
  else if c = 'o' || c = 'O' then some 8
  else if c = 'd' || c = 'D' then some 10
  else if c = 'x' || c = 'X' then some 16
  else none

/-- The exactness-prefix characters consumed (with no semantic effect) by
the `hash_again` sub-loop. -/
def isExactnessChar (c : Char) : Bool := c = 'e' || c = 'E' || c = 'i' || c = 'I'

/-! ## The reader

`read fuel s` is one invocation of `READ_DECL` on input `s`.  `rd` in the
helpers is the nested `READ_CALL` (one fuel level down), and the `goto
try_again` retries are likewise modelled as nested calls, which is faithful
because `try_again` resets the radix state exactly as a fresh call does. -/

/-- Hash production (`#` consumed, next character peeked).  The
`hash_again` exactness sub-loop is the leading `dropWhile`; the remaining
dispatch mirrors the C `switch` (with `E` and `CALL_MACRO_CHAR` undefined,
`##` and unknown directives fall to the error default). -/
def readHashAux (rd : List Char → R) (s : List Char) : R :=
  match s.dropWhile isExactnessChar with
  | [] => R.err Err.eosAfterHash
  | c :: t =>
    if c = '!' then rd (dropLineComment t)
    else if c = '|' then
      match skipBlock 1 t with
      | some r => rd r
      | none => R.err Err.unterminatedBlockComment
    else if c = ';' then
      match rd t with
      | R.ok _ r m => R.addMuts m (rd r)
      | x => x
    else if c = '(' then
      match rd (c :: t) with
      | R.ok v r m => R.ok (Value.vec v) r m
      | x => x
    else if c = '\\' then readCharLit t
    else if c = 'f' || c = 'F' then R.ok Value.f t 0
    else if c = 't' || c = 'T' then R.ok Value.t t 0
    else if c = 'u' || c = 'U' then R.ok Value.u t 0
    else if c = 'b' || c = 'B' then readToken c t 2 true
    else if c = 'o' || c = 'O' then readToken c t 8 true
    else if c = 'd' || c = 'D' then readToken c t 10 true
    else if c = 'x' || c = 'X' then readToken c t 16 true
    else R.err (Err.badHashSequence c)

/-- List production.  `acc` is the sequence of elements already linked
(`head`/`tail` in the C), `mcnt` the `SET_CDR` count so far: linking each
element after the first costs one mutation, and attaching a dotted cdr
costs one mutation on the last element pair. -/
def readListAux (rd : List Char → R) : Nat → Char → List Char → List Value → Nat → R
  | 0, _, _, _, _ => R.outOfFuel
  | lf + 1, term, s, acc, mcnt =>
    match eatWs s with
    | [] => R.err Err.eosInList
    | c :: t =>
      if c = term then R.ok (mkImproper acc Value.nil) t mcnt
      else
        match rd (c :: t) with
        | R.ok x r m =>
          if x = Value.sym (".") then
            if acc.isEmpty then R.err Err.dotNoElement
            else
              match rd r with
              | R.ok d r2 m2 =>
                match eatWs r2 with
                | [] => R.err Err.eosAfterDotCdr
                | c2 :: t2 =>
                  if c2 = term then R.ok (mkImproper acc d) t2 (mcnt + m + m2 + 1)
                  else R.err (Err.wrongTerminator term c2)
              | R.err e => R.err e
              | R.outOfFuel => R.outOfFuel
          else
            readListAux rd lf term r (acc ++ [x])
              (mcnt + m + (if acc.isEmpty then 0 else 1))
        | R.err e => R.err e
        | R.outOfFuel => R.outOfFuel

/-- One dispatch step of the reader: skip whitespace/comments, return EOS
at end of input, otherwise consume the lead character and branch exactly as
the C `switch` does. -/
def readStep (rd : List Char → R) (lf : Nat) (s : List Char) : R :=
  match eatWs s with
  | [] => R.ok Value.eos [] 0
  | c :: t =>
    if c = squote then quoteWrap ("quote") (rd t)
    else if c = bquote then quoteWrap ("quasiquote") (rd t)
    else if c = ',' then
      if t.head? = some '@' then quoteWrap ("unquote_splicing") (rd (t.drop 1))
      else quoteWrap ("unquote") (rd t)
    else if c = '[' then readListAux rd lf (']') t [] 0
    else if c = '(' then readListAux rd lf (')') t [] 0
    else if c = '#' then readHashAux rd t
    else if c = dquote then rdStr t [] false
    else if isTokenStart c then readToken c t 10 false
    else R.err (Err.unexpectedChar c)

/-- One invocation of the read function at the given fuel. -/
def read : Nat → List Char → R
  | 0, _ => R.outOfFuel
  | fuel + 1, s => readStep (read fuel) fuel s

/-! ## Token-text predicates (used only to state theorems) -/

/-- Every character of `l` is non-terminating (would be accumulated by the
token scanner). -/
def allNonTerm (l : List Char) : Bool := l.all (fun c => !isTerm c)

/-- The input is exhausted or its next character terminates a token. -/
def headTerm (l : List Char) : Bool :=
  match l with
  | [] => true
  | c :: _ => isTerm c

/-- A non-empty character sequence that the reader scans as one token:
its lead character starts token production and no character terminates. -/
def isTokenText (l : List Char) : Bool :=
  match l with
  | [] => false
  | c :: _ => isTokenStart c && allNonTerm l

/-- A token that reads as an ordinary symbol: token text, rejected by the
number parser at radix 10, and not the special `.` token. -/
def symToken (l : List Char) : Prop :=
  isTokenText l = true ∧ string2number (String.mk l) 10 = none ∧ ¬(l = ['.'])

/-! ## Basic lemmas about the embedding -/

theorem read_succ (f : Nat) (s : List Char) : read (f + 1) s = readStep (read f) f s := rfl

theorem eatWs_nil : eatWs [] = [] := rfl

theorem eatWs_cons_stop (c : Char) (t : List Char) (h1 : isspace c = false)
    (h2 : ¬(c = ';')) : eatWs (c :: t) = c :: t := by
  simp [eatWs, eatWsM, h1, h2]

theorem eatWs_cons_space (c : Char) (t : List Char) (h1 : isspace c = true) :
    eatWs (c :: t) = eatWs t := by
  simp [eatWs, eatWsM, h1]

theorem tokenStart_facts {c : Char} (h : isTokenStart c = true) :
    isspace c = false ∧ ¬(c = ';') ∧ ¬(c = squote) ∧ ¬(c = bquote) ∧ ¬(c = ',') ∧
    ¬(c = '[') ∧ ¬(c = ']') ∧ ¬(c = '(') ∧ ¬(c = ')') ∧ ¬(c = '#') ∧ ¬(c = dquote) := by
  constructor
  · show spaceB c.toNat = false
    cases hsp : spaceB c.toNat with
    | false => rfl
    | true =>
      exfalso
      have h' : tokenStartB c.toNat = true := h
      simp only [tokenStartB, digitB, punctB, alphaB, Bool.or_eq_true,
        decide_eq_true_eq] at h'
      simp only [spaceB, decide_eq_true_eq] at hsp
      omega
  · refine ⟨?_, ?_, ?_, ?_, ?_, ?_, ?_, ?_, ?_, ?_⟩ <;>
      (intro he; subst he; exact absurd h (by decide))

theorem eatWs_token_lead (tok rest : List Char) (h : isTokenText tok = true) :
    eatWs (tok ++ rest) = tok ++ rest := by
  cases tok with
  | nil => simp [isTokenText] at h
  | cons c mid =>
    have hstart : isTokenStart c = true := by
      simp only [isTokenText, Bool.and_eq_true] at h
      exact h.1
    have hf := tokenStart_facts hstart
    rw [List.cons_append]
    exact eatWs_cons_stop _ _ hf.1 hf.2.1

theorem scanToken_split (mid : List Char) (h1 : allNonTerm mid = true) :
    ∀ (acc rest : List Char), headTerm rest = true →
      scanToken acc (mid ++ rest) = (acc ++ mid, rest) := by
  induction mid with
  | nil =>
    intro acc rest h2
    cases rest with
    | nil => simp [scanToken]
    | cons c t =>
      simp only [headTerm] at h2
      simp [scanToken, h2]
  | cons c mid ih =>
    intro acc rest h2
    simp only [allNonTerm, List.all_cons, Bool.and_eq_true, Bool.not_eq_true'] at h1
    have step := ih (by simp [allNonTerm, h1.2]) (acc ++ [c]) rest h2
    simp [scanToken, h1.1, step]

theorem readToken_noskip (c0 : Char) (mid rest : List Char) (radix : Nat)
    (h1 : allNonTerm mid = true) (h2 : headTerm rest = true) :
    readToken c0 (mid ++ rest) radix false =
      (match string2number (String.mk (c0 :: mid)) radix with
       | some n => R.ok (Value.num n) rest 0
       | none => R.ok (Value.sym (String.mk (c0 :: mid))) rest 0) := by
  have h := scanToken_split mid h1 [c0] rest h2
  simp [readToken, h]

theorem readToken_skip (c0 : Char) (mid rest : List Char) (radix : Nat)
    (h1 : allNonTerm mid = true) (h2 : headTerm rest = true) :
    readToken c0 (mid ++ rest) radix true =
      (match string2number (String.mk mid) radix with
       | some n => R.ok (Value.num n) rest 0
       | none => R.err (Err.invalidNumber (String.mk mid))) := by
  have h := scanToken_split mid h1 [c0] rest h2
  simp [readToken, h]

theorem readStep_token (rd : List Char → R) (lf : Nat) (s : List Char) (c : Char)
    (t : List Char) (hws : eatWs s = c :: t) (hstart : isTokenStart c = true) :
    readStep rd lf s = readToken c t 10 false := by
  obtain ⟨hsp, hsemi, hsq, hbq, hcm, hlb, hrb, hlp, hrp, hhash, hdq⟩ :=
    tokenStart_facts hstart
  simp only [readStep, hws]
  rw [if_neg hsq, if_neg hbq, if_neg hcm, if_neg hlb, if_neg hlp, if_neg hhash,
    if_neg hdq, if_pos hstart]

theorem read_symbol (g : Nat) (s tok rest : List Char)
    (hws : eatWs s = tok ++ rest) (ht : isTokenText tok = true)
    (hrest : headTerm rest = true)
    (hnum : string2number (String.mk tok) 10 = none) :
    read (g + 1) s = R.ok (Value.sym (String.mk tok)) rest 0 := by
  cases tok with
  | nil => simp [isTokenText] at ht
  | cons c mid =>
    simp only [isTokenText, Bool.and_eq_true] at ht
    obtain ⟨hstart, hall⟩ := ht
    have hallmid : allNonTerm mid = true := by
      simp only [allNonTerm, List.all_cons, Bool.and_eq_true] at hall
      exact hall.2
    rw [read_succ,
      readStep_token (read g) g s c (mid ++ rest) (by rw [hws, List.cons_append]) hstart,
      readToken_noskip c mid rest 10 hallmid hrest, hnum]

theorem read_number (g : Nat) (s tok rest : List Char) (n : Int)
    (hws : eatWs s = tok ++ rest) (ht : isTokenText tok = true)
    (hrest : headTerm rest = true)
    (hnum : string2number (String.mk tok) 10 = some n) :
    read (g + 1) s = R.ok (Value.num n) rest 0 := by
  cases tok with
  | nil => simp [isTokenText] at ht
  | cons c mid =>
    simp only [isTokenText, Bool.and_eq_true] at ht
    obtain ⟨hstart, hall⟩ := ht
    have hallmid : allNonTerm mid = true := by
      simp only [allNonTerm, List.all_cons, Bool.and_eq_true] at hall
      exact hall.2
    rw [read_succ,
      readStep_token (read g) g s c (mid ++ rest) (by rw [hws, List.cons_append]) hstart,
      readToken_noskip c mid rest 10 hallmid hrest, hnum]

theorem readListAux_term (rd : List Char → R) (lf : Nat) (term : Char)
    (s t : List Char) (acc : List Value) (mcnt : Nat)
    (hws : eatWs s = term :: t) :
    readListAux rd (lf + 1) term s acc mcnt = R.ok (mkImproper acc Value.nil) t mcnt := by
  simp [readListAux, hws]

theorem readListAux_elem (rd : List Char → R) (lf : Nat) (term c : Char)
    (s t r : List Char) (acc : List Value) (mcnt : Nat) (x : Value) (m : Nat)
    (hws : eatWs s = c :: t) (hc : ¬(c = term)) (hx : rd (c :: t) = R.ok x r m)
    (hdot : ¬(x = Value.sym ("."))) :
    readListAux rd (lf + 1) term s acc mcnt =
      readListAux rd lf term r (acc ++ [x]) (mcnt + m + (if acc.isEmpty then 0 else 1)) := by
  simp [readListAux, hws, hc, hx, hdot]

theorem readListAux_dot (rd : List Char → R) (lf : Nat) (term c : Char)
    (s t r r2 t2 : List Char) (acc : List Value) (mcnt m : Nat)
    (d : Value) (m2 : Nat) (c2 : Char)
    (hws : eatWs s = c :: t) (hc : ¬(c = term))
    (hx : rd (c :: t) = R.ok (Value.sym (".")) r m)
    (hacc : acc.isEmpty = false) (hd : rd r = R.ok d r2 m2)
    (hws2 : eatWs r2 = c2 :: t2) (hc2 : c2 = term) :
    readListAux rd (lf + 1) term s acc mcnt =
      R.ok (mkImproper acc d) t2 (mcnt + m + m2 + 1) := by
  simp [readListAux, hws, hc, hx, hacc, hd, hws2, hc2]

theorem sym_ne_dot (tok : List Char) (h : ¬(tok = ['.'])) :
    ¬(Value.sym (String.mk tok) = Value.sym (".")) := by
  intro he
  apply h
  have h2 : String.mk tok = String.mk ['.'] := Value.sym.inj he
  simpa using congrArg String.data h2

theorem readListAux_symStep (g lf : Nat) (s tok rest : List Char)
    (acc : List Value) (mcnt : Nat)
    (hws : eatWs s = tok ++ rest)
    (h1 : isTokenText tok = true) (h2 : string2number (String.mk tok) 10 = none)
    (h3 : ¬(tok = ['.'])) (h4 : headTerm rest = true) :
    readListAux (read (g + 1)) (lf + 1) (')') s acc mcnt =
      readListAux (read (g + 1)) lf (')') rest (acc ++ [Value.sym (String.mk tok)])
        (mcnt + (if acc.isEmpty then 0 else 1)) := by
  cases tok with
  | nil => simp [isTokenText] at h1
  | cons ch mid =>
    have hstart : isTokenStart ch = true := by
      simp only [isTokenText, Bool.and_eq_true] at h1
      exact h1.1
    have hf := tokenStart_facts hstart
    have hws2 : eatWs (ch :: (mid ++ rest)) = (ch :: mid) ++ rest := by
      rw [List.cons_append]
      exact eatWs_cons_stop _ _ hf.1 hf.2.1
    have hx : read (g + 1) (ch :: (mid ++ rest)) =
        R.ok (Value.sym (String.mk (ch :: mid))) rest 0 :=
      read_symbol g _ (ch :: mid) rest hws2 h1 h4 h2
    have step := readListAux_elem (read (g + 1)) lf (')') ch s (mid ++ rest) rest acc mcnt
      (Value.sym (String.mk (ch :: mid))) 0
      (by rw [hws, List.cons_append]) hf.2.2.2.2.2.2.2.2.1 hx (sym_ne_dot _ h3)
    exact step.trans (by simp)

theorem read_lparen (f : Nat) (t : List Char) :
    read (f + 1) ('(' :: t) = readListAux (read f) f (')') t [] 0 := by
  rw [read_succ]
  simp only [readStep, eatWs_cons_stop '(' t (by decide) (by decide)]
  simp +decide

theorem read_hash (f : Nat) (t : List Char) :
    read (f + 1) ('#' :: t) = readHashAux (read f) t := by
  rw [read_succ]
  simp only [readStep, eatWs_cons_stop '#' t (by decide) (by decide)]
  simp +decide

theorem readHashAux_exact (rd : List Char → R) (c : Char) (t : List Char)
    (hc : isExactnessChar c = true) :
    readHashAux rd (c :: t) = readHashAux rd t := by
  simp [readHashAux, List.dropWhile_cons, hc]

theorem readHashAux_radix (rd : List Char → R) (r : Char) (ρ : Nat) (w : List Char)
    (hr : radixOfChar r = some ρ) :
    readHashAux rd (r :: w) = readToken r w ρ true := by
  simp only [radixOfChar] at hr
  split_ifs at hr with h1 h2 h3 h4
  · simp only [Option.some.injEq] at hr
    subst hr
    simp only [Bool.or_eq_true, decide_eq_true_eq] at h1
    rcases h1 with rfl | rfl <;> simp +decide [readHashAux, List.dropWhile_cons]
  · simp only [Option.some.injEq] at hr
    subst hr
    simp only [Bool.or_eq_true, decide_eq_true_eq] at h2
    rcases h2 with rfl | rfl <;> simp +decide [readHashAux, List.dropWhile_cons]
  · simp only [Option.some.injEq] at hr
    subst hr
    simp only [Bool.or_eq_true, decide_eq_true_eq] at h3
    rcases h3 with rfl | rfl <;> simp +decide [readHashAux, List.dropWhile_cons]
  · simp only [Option.some.injEq] at hr
    subst hr
    simp only [Bool.or_eq_true, decide_eq_true_eq] at h4
    rcases h4 with rfl | rfl <;> simp +decide [readHashAux, List.dropWhile_cons]

theorem read_radix (f : Nat) (r : Char) (ρ : Nat) (t rest : List Char)
    (hr : radixOfChar r = some ρ) (h1 : allNonTerm t = true) (h2 : headTerm rest = true) :
    read (f + 1) ('#' :: r :: (t ++ rest)) =
      (match string2number (String.mk t) ρ with
       | some n => R.ok (Value.num n) rest 0
       | none => R.err (Err.invalidNumber (String.mk t))) := by
  rw [read_hash, readHashAux_radix (read f) r ρ (t ++ rest) hr,
    readToken_skip r t rest ρ h1 h2]

theorem hostSymbol_quote : hostSymbol ("quote") = Value.sym ("quote") := by decide

theorem hostSymbol_quasiquote : hostSymbol ("quasiquote") = Value.sym ("quasiquote") := by
  decide

theorem hostSymbol_unquote : hostSymbol ("unquote") = Value.sym ("unquote") := by decide

theorem hostSymbol_unquote_splicing :
    hostSymbol ("unquote_splicing") = Value.sym ("unquote-splicing") := by decide

theorem read_quote_step (f : Nat) (s : List Char) (v : Value) (r : List Char) (m : Nat)
    (h : read f s = R.ok v r m) :
    read (f + 1) (squote :: s) =
      R.ok (Value.pair (Value.sym ("quote")) (Value.pair v Value.nil)) r m := by
  rw [read_succ]
  simp only [readStep, eatWs_cons_stop squote s (by decide) (by decide)]
  simp +decide [quoteWrap, h, hostSymbol_quote]

theorem read_quasiquote_step (f : Nat) (s : List Char) (v : Value) (r : List Char) (m : Nat)
    (h : read f s = R.ok v r m) :
    read (f + 1) (bquote :: s) =
      R.ok (Value.pair (Value.sym ("quasiquote")) (Value.pair v Value.nil)) r m := by
  rw [read_succ]
  simp only [readStep, eatWs_cons_stop bquote s (by decide) (by decide)]
  simp +decide [quoteWrap, h, hostSymbol_quasiquote]

theorem read_unquote_step (f : Nat) (s : List Char) (v : Value) (r : List Char) (m : Nat)
    (h : read f s = R.ok v r m) (hg : ¬(s.head? = some '@')) :
    read (f + 1) (',' :: s) =
      R.ok (Value.pair (Value.sym ("unquote")) (Value.pair v Value.nil)) r m := by
  rw [read_succ]
  simp only [readStep, eatWs_cons_stop ',' s (by decide) (by decide)]
  simp +decide [quoteWrap, h, hg, hostSymbol_unquote]

theorem read_unquote_splicing_step (f : Nat) (s : List Char) (v : Value) (r : List Char)
    (m : Nat) (h : read f s = R.ok v r m) :
    read (f + 1) (',' :: '@' :: s) =
      R.ok (Value.pair (Value.sym ("unquote-splicing")) (Value.pair v Value.nil)) r m := by
  rw [read_succ]
  simp only [readStep, eatWs_cons_stop ',' ('@' :: s) (by decide) (by decide)]
  simp +decide [quoteWrap, h, hostSymbol_unquote_splicing]

/-! ## The claims -/

/-- C1: for every input of the form `(a b c)` — an open parenthesis,
whitespace-separated ordinary symbol tokens, a close parenthesis — one read
invocation returns the proper list of the three interned symbols in input
order whose final rest field is the `Nil` sentinel (and performs exactly the
two tail-linking `SET_CDR` mutations of the accumulation loop). -/
theorem claim_C1_list_of_three_symbols (f : Nat) (a b c : List Char)
    (ha : symToken a) (hb : symToken b) (hc : symToken c) :
    read (f + 5) ('(' :: (a ++ ' ' :: (b ++ ' ' :: (c ++ [')'])))) =
      R.ok (Value.pair (Value.sym (String.mk a))
              (Value.pair (Value.sym (String.mk b))
                (Value.pair (Value.sym (String.mk c)) Value.nil))) [] 2 := by
  obtain ⟨ha1, ha2, ha3⟩ := ha
  obtain ⟨hb1, hb2, hb3⟩ := hb
  obtain ⟨hc1, hc2, hc3⟩ := hc
  have hw1 : eatWs (a ++ ' ' :: (b ++ ' ' :: (c ++ [')']))) =
      a ++ ' ' :: (b ++ ' ' :: (c ++ [')'])) := eatWs_token_lead a _ ha1
  have hw2 : eatWs (' ' :: (b ++ ' ' :: (c ++ [')']))) = b ++ ' ' :: (c ++ [')']) := by
    rw [eatWs_cons_space ' ' _ (by decide)]
    exact eatWs_token_lead b _ hb1
  have hw3 : eatWs (' ' :: (c ++ [')'])) = c ++ [')'] := by
    rw [eatWs_cons_space ' ' _ (by decide)]
    exact eatWs_token_lead c _ hc1
  have hw4 : eatWs [')'] = (')') :: [] := rfl
  refine (read_lparen (f + 4) _).trans ?_
  refine (readListAux_symStep (f + 3) (f + 3) _ a _ [] 0 hw1 ha1 ha2 ha3 rfl).trans ?_
  refine (readListAux_symStep (f + 3) (f + 2) _ b _ _ _ hw2 hb1 hb2 hb3 rfl).trans ?_
  refine (readListAux_symStep (f + 3) (f + 1) _ c _ _ _ hw3 hc1 hc2 hc3 rfl).trans ?_
  rw [readListAux_term _ f _ _ _ _ _ hw4]
  rfl

/-- Witness for C1: the instance `(a b c)` with the one-letter symbol
tokens `a`, `b`, `c`. -/
theorem claim_C1_witness :
    read 5 ('(' :: (['a'] ++ ' ' :: (['b'] ++ ' ' :: (['c'] ++ [')'])))) =
      R.ok (Value.pair (Value.sym (String.mk ['a']))
              (Value.pair (Value.sym (String.mk ['b']))
                (Value.pair (Value.sym (String.mk ['c'])) Value.nil))) [] 2 :=
  claim_C1_list_of_three_symbols 0 ['a'] ['b'] ['c']
    ⟨by decide, by decide, by decide⟩ ⟨by decide, by decide, by decide⟩
    ⟨by decide, by decide, by decide⟩

/-- C2: for every input of the form `(a . b)` with ordinary symbol tokens
`a` and `b`, one read invocation returns the single pair with `first` the
value of `a` and `rest` the value of `b`, with no additional wrapping pair,
and the dotted cdr is attached by exactly one `SET_CDR` mutation (the
result's mutation count is 1, on the last—and only—element pair). -/
theorem claim_C2_dotted_pair (f : Nat) (a b : List Char)
    (ha : symToken a) (hb : symToken b) :
    read (f + 5) ('(' :: (a ++ ' ' :: '.' :: ' ' :: (b ++ [')']))) =
      R.ok (Value.pair (Value.sym (String.mk a)) (Value.sym (String.mk b))) [] 1 := by
  obtain ⟨ha1, ha2, ha3⟩ := ha
  obtain ⟨hb1, hb2, hb3⟩ := hb
  have hw1 : eatWs (a ++ ' ' :: '.' :: ' ' :: (b ++ [')'])) =
      a ++ ' ' :: '.' :: ' ' :: (b ++ [')']) := eatWs_token_lead a _ ha1
  have hwsdot : eatWs (' ' :: '.' :: ' ' :: (b ++ [')'])) =
      '.' :: (' ' :: (b ++ [')'])) := by
    rw [eatWs_cons_space ' ' _ (by decide)]
    exact eatWs_cons_stop '.' _ (by decide) (by decide)
  have hxdot : read ((f + 3) + 1) ('.' :: (' ' :: (b ++ [')']))) =
      R.ok (Value.sym (String.mk ['.'])) (' ' :: (b ++ [')'])) 0 := by
    refine read_symbol (f + 3) _ ['.'] (' ' :: (b ++ [')'])) ?_ (by decide) rfl (by decide)
    exact eatWs_cons_stop '.' _ (by decide) (by decide)
  have hd : read ((f + 3) + 1) (' ' :: (b ++ [')'])) =
      R.ok (Value.sym (String.mk b)) [')'] 0 := by
    refine read_symbol (f + 3) _ b [')'] ?_ hb1 rfl hb2
    rw [eatWs_cons_space ' ' _ (by decide)]
    exact eatWs_token_lead b _ hb1
  refine (read_lparen (f + 4) _).trans ?_
  refine (readListAux_symStep (f + 3) (f + 3) _ a _ [] 0 hw1 ha1 ha2 ha3 rfl).trans ?_
  exact readListAux_dot (read ((f + 3) + 1)) (f + 2) (')') '.' _ _ _ _ _ _ _ 0
    (Value.sym (String.mk b)) 0 (')') hwsdot (by decide) hxdot rfl hd rfl rfl

/-- Witness for C2: the instance `(a . b)` with symbol tokens `a`, `b`. -/
theorem claim_C2_witness :
    read 5 ('(' :: (['a'] ++ ' ' :: '.' :: ' ' :: (['b'] ++ [')']))) =
      R.ok (Value.pair (Value.sym (String.mk ['a'])) (Value.sym (String.mk ['b']))) [] 1 :=
  claim_C2_dotted_pair 0 ['a'] ['b']
    ⟨by decide, by decide, by decide⟩ ⟨by decide, by decide, by decide⟩

/-- C3: token production hands the scanned buffer — minus exactly one
leading byte when a radix indicator was flagged — to the host number parser
at the selected radix, and on success returns the numeric value.  First
conjunct: an unprefixed token parses at radix 10.  Second conjunct: after
`#b`/`#o`/`#d`/`#x` the buffer is the radix letter followed by the token
characters, and the parser receives exactly the token characters (one byte
dropped) at the radix the letter selects.  The two concrete conjuncts are
the spec's instances `123` → 123 and `#x1F` → 31. -/
theorem claim_C3_number_token_production :
    (∀ (f : Nat) (tok rest : List Char) (n : Int),
       isTokenText tok = true → headTerm rest = true →
       string2number (String.mk tok) 10 = some n →
       read (f + 1) (tok ++ rest) = R.ok (Value.num n) rest 0) ∧
    (∀ (f : Nat) (r : Char) (ρ : Nat) (t rest : List Char) (n : Int),
       radixOfChar r = some ρ → allNonTerm t = true → headTerm rest = true →
       string2number (String.mk t) ρ = some n →
       read (f + 1) ('#' :: r :: (t ++ rest)) = R.ok (Value.num n) rest 0) ∧
    read 1 ("123".data) = R.ok (Value.num 123) [] 0 ∧
    read 1 ("#x1F".data) = R.ok (Value.num 31) [] 0 := by
  refine ⟨?_, ?_, by decide, by decide⟩
  · intro f tok rest n h1 h2 h3
    exact read_number f (tok ++ rest) tok rest n (eatWs_token_lead tok rest h1) h1 h2 h3
  · intro f r ρ t rest n hr h1 h2 h3
    rw [read_radix f r ρ t rest hr h1 h2, h3]

/-- Witness for C3: both quantified conjuncts applied at concrete inputs
(`123` at radix 10; `#x1F`, where the parser receives `1F` at radix 16). -/
theorem claim_C3_witness :
    read 1 (['1', '2', '3'] ++ []) = R.ok (Value.num 123) [] 0 ∧
    read 1 ('#' :: 'x' :: (['1', 'F'] ++ [])) = R.ok (Value.num 31) [] 0 :=
  ⟨claim_C3_number_token_production.1 0 ['1', '2', '3'] [] 123
      (by decide) (by decide) (by decide),
   claim_C3_number_token_production.2.1 0 'x' 16 ['1', 'F'] [] 31
      (by decide) (by decide) (by decide) (by decide)⟩

/-- C4: when host number parsing of a token fails, a forced radix prefix
makes the reader raise the invalid-number-literal error (so `#xZZ` errors),
while with no radix forced the token text is interned and returned as a
symbol.  (`NIL_SYMBOL` is not defined in this build, so the conditional
empty-list substitution for a reserved nil alias does not arise and the
symbol itself is returned.) -/
theorem claim_C4_number_parse_failure :
    (∀ (f : Nat) (r : Char) (ρ : Nat) (t rest : List Char),
       radixOfChar r = some ρ → allNonTerm t = true → headTerm rest = true →
       string2number (String.mk t) ρ = none →
       read (f + 1) ('#' :: r :: (t ++ rest)) =
         R.err (Err.invalidNumber (String.mk t))) ∧
    (∀ (f : Nat) (tok rest : List Char),
       isTokenText tok = true → headTerm rest = true →
       string2number (String.mk tok) 10 = none →
       read (f + 1) (tok ++ rest) = R.ok (Value.sym (String.mk tok)) rest 0) ∧
    read 1 ("#xZZ".data) = R.err (Err.invalidNumber ("ZZ")) := by
  refine ⟨?_, ?_, by decide⟩
  · intro f r ρ t rest hr h1 h2 h3
    rw [read_radix f r ρ t rest hr h1 h2, h3]
  · intro f tok rest h1 h2 h3
    exact read_symbol f (tok ++ rest) tok rest (eatWs_token_lead tok rest h1) h1 h2 h3

/-- Witness for C4: `#xZZ` (forced radix, parse failure, error) and the
token `foo` (no radix, parse failure, symbol). -/
theorem claim_C4_witness :
    read 1 ('#' :: 'x' :: (['Z', 'Z'] ++ [])) =
      R.err (Err.invalidNumber (String.mk ['Z', 'Z'])) ∧
    read 1 (['f', 'o', 'o'] ++ []) = R.ok (Value.sym (String.mk ['f', 'o', 'o'])) [] 0 :=
  ⟨claim_C4_number_parse_failure.1 0 'x' 16 ['Z', 'Z'] []
      (by decide) (by decide) (by decide) (by decide),
   claim_C4_number_parse_failure.2.1 0 ['f', 'o', 'o'] []
      (by decide) (by decide) (by decide)⟩

/-- C5, counterexample to the claim as stated: the claim quantifies over
every datum text `x`, but for `x = @f` (a datum text: `@` is a
symbol-constituent character) the text `,x` is `,@f`, which the reader
parses as `(unquote-splicing f)`, not as `(unquote @f)`. -/
theorem claim_C5_counterexample :
    ¬(read 4 (',' :: '@' :: ['f']) =
        R.ok (Value.pair (Value.sym ("unquote"))
          (Value.pair (Value.sym ("@f")) Value.nil)) [] 0) ∧
    read 4 (',' :: '@' :: ['f']) =
      R.ok (Value.pair (Value.sym ("unquote-splicing"))
        (Value.pair (Value.sym ("f")) Value.nil)) [] 0 := by
  decide

/-- C5 (amended: the `,x` clause requires the datum text `x` not to begin
with `@`; with `x` beginning with `@` the `,@` rule fires instead): reading
`'x` / `` `x `` / `,x` / `,@x` returns the two-element proper list whose
first element is respectively the synthesized symbol `quote`,
`quasiquote`, `unquote`, `unquote-splicing` and whose second element is the
value of `x`, built as two nested pairs ending in `Nil`. -/
theorem claim_C5_quote_forms (f : Nat) (s : List Char) (v : Value) (r : List Char)
    (m : Nat) (h : read f s = R.ok v r m) :
    read (f + 1) (squote :: s) =
      R.ok (Value.pair (Value.sym ("quote")) (Value.pair v Value.nil)) r m ∧
    read (f + 1) (bquote :: s) =
      R.ok (Value.pair (Value.sym ("quasiquote")) (Value.pair v Value.nil)) r m ∧
    (¬(s.head? = some '@') →
      read (f + 1) (',' :: s) =
        R.ok (Value.pair (Value.sym ("unquote")) (Value.pair v Value.nil)) r m) ∧
    read (f + 1) (',' :: '@' :: s) =
      R.ok (Value.pair (Value.sym ("unquote-splicing")) (Value.pair v Value.nil)) r m :=
  ⟨read_quote_step f s v r m h, read_quasiquote_step f s v r m h,
   fun hg => read_unquote_step f s v r m h hg, read_unquote_splicing_step f s v r m h⟩

/-- Witness for C5 at the datum text `y`. -/
theorem claim_C5_witness :
    read 2 (squote :: ['y']) =
      R.ok (Value.pair (Value.sym ("quote"))
        (Value.pair (Value.sym ("y")) Value.nil)) [] 0 ∧
    read 2 (',' :: ['y']) =
      R.ok (Value.pair (Value.sym ("unquote"))
        (Value.pair (Value.sym ("y")) Value.nil)) [] 0 := by
  have h := claim_C5_quote_forms 1 ['y'] (Value.sym ("y")) [] 0 (by decide)
  exact ⟨h.1, h.2.2.1 (by decide)⟩

/-- C6, counterexample to the claim as stated: the claim's parenthetical
defines the modified text as `#e` followed by the whole of `h` including
its `#`; for the hash form `h = #f` that text is `#e#f`, which errors (in
this build `##` is the unsupported-hash-sequence error since `E` is not
defined), while `h` alone reads successfully as the false sentinel — so a
successful read is turned into an error. -/
theorem claim_C6_counterexample :
    read 5 ('#' :: 'e' :: '#' :: ['f']) = R.err (Err.badHashSequence '#') ∧
    read 5 ('#' :: ['f']) = R.ok Value.f [] 0 := by
  decide

/-- C6 (amended: `e` or `i` is inserted directly after the initial `#` of
`h`, i.e. the modified text is `#e` followed by the rest of `h` after its
`#`): an exactness prefix is accepted and ignored — for every tail `t`,
reading `#e`/`#E`/`#i`/`#I` followed by `t` gives exactly the same result
as reading `#` followed by `t`, so it never changes the value and never
turns a successful read into an error. -/
theorem claim_C6_exactness_ignored (f : Nat) (t : List Char) :
    read (f + 1) ('#' :: 'e' :: t) = read (f + 1) ('#' :: t) ∧
    read (f + 1) ('#' :: 'E' :: t) = read (f + 1) ('#' :: t) ∧
    read (f + 1) ('#' :: 'i' :: t) = read (f + 1) ('#' :: t) ∧
    read (f + 1) ('#' :: 'I' :: t) = read (f + 1) ('#' :: t) := by
  refine ⟨?_, ?_, ?_, ?_⟩ <;>
    rw [read_hash, read_hash, readHashAux_exact _ _ _ (by decide)]

/-- C7: reading `(1 2` (end of input before the terminator) raises the
end-of-input-inside-list error (`ERROR("eos in list")`, the
UnexpectedEndOfInput case), and reading `(. 1)` raises the
dot-with-no-preceding-element error (`ERROR("expected something before '.'
in list")`, the MalformedDottedList case); in both cases the invocation
produces an error, not a value. -/
theorem claim_C7_list_errors :
    read 10 ("(1 2".data) = R.err Err.eosInList ∧
    read 10 ("(. 1)".data) = R.err Err.dotNoElement := by
  decide

/-- C8: `; comment\n42` reads as the number 42 and the nested block comment
text `#| a #| b |# c |# 7` reads as 7; the block-comment scanner keeps a
nesting counter (started at 1 by the `#|` branch), increments it at each
`#|`, decrements it at each `|#`, stops exactly when it reaches 0, and end
of input at positive nesting is the unterminated-block-comment error. -/
theorem claim_C8_comment_skipping :
    read 5 ("; comment\n42".data) = R.ok (Value.num 42) [] 0 ∧
    read 5 ("#| a #| b |# c |# 7".data) = R.ok (Value.num 7) [] 0 ∧
    (∀ (l : Nat) (t : List Char),
       skipBlock (l + 1) ('#' :: '|' :: t) = skipBlock (l + 2) t) ∧
    (∀ (l : Nat) (t : List Char),
       skipBlock (l + 1) ('|' :: '#' :: t) = skipBlock l t) ∧
    (∀ s : List Char, skipBlock 0 s = some s) ∧
    (∀ l : Nat, skipBlock (l + 1) [] = none) ∧
    read 5 ("#| x".data) = R.err Err.unterminatedBlockComment := by
  refine ⟨by decide, by decide, ?_, ?_, ?_, ?_, by decide⟩
  · intro l t
    rw [skipBlock.eq_def]
    simp
  · intro l t
    rw [skipBlock.eq_def]
    simp
  · intro s
    rw [skipBlock.eq_def]
    simp
  · intro l
    rw [skipBlock.eq_def]
    simp

/-- C9: any input the whitespace/comment skipper exhausts (empty input, or
whitespace and line comments only) reads as the End-Of-Stream sentinel with
nothing left, and reading again from the exhausted source returns
End-Of-Stream again. -/
theorem claim_C9_eos_idempotent (f : Nat) (s : List Char) (h : eatWs s = []) :
    read (f + 1) s = R.ok Value.eos [] 0 ∧
    read (f + 1) [] = R.ok Value.eos [] 0 := by
  constructor
  · rw [read_succ]
    simp [readStep, h]
  · rfl

/-- Witness for C9: the comment-only input `;x` and the empty input. -/
theorem claim_C9_witness :
    read 1 (';' :: ['x']) = R.ok Value.eos [] 0 ∧
    read 1 [] = R.ok Value.eos [] 0 :=
  claim_C9_eos_idempotent 0 (';' :: ['x']) (by decide)

/-- C10: an input consisting of exactly `'` (likewise a backquote or `,`)
followed by end of input does not raise an error: the nested read returns
the End-Of-Stream sentinel and the invocation returns the two-element list
whose second element is that embedded sentinel. -/
theorem claim_C10_quote_at_eof (f : Nat) :
    read (f + 2) [squote] =
      R.ok (Value.pair (Value.sym ("quote")) (Value.pair Value.eos Value.nil)) [] 0 ∧
    read (f + 2) [bquote] =
      R.ok (Value.pair (Value.sym ("quasiquote")) (Value.pair Value.eos Value.nil)) [] 0 ∧
    read (f + 2) [','] =
      R.ok (Value.pair (Value.sym ("unquote")) (Value.pair Value.eos Value.nil)) [] 0 := by
  have h : read (f + 1) ([] : List Char) = R.ok Value.eos [] 0 := rfl
  exact ⟨read_quote_step (f + 1) [] Value.eos [] 0 h,
         read_quasiquote_step (f + 1) [] Value.eos [] 0 h,
         read_unquote_step (f + 1) [] Value.eos [] 0 h (by decide)⟩
